import Mathlib

/-!
Shallow embedding of the core of the `metigan` SDK (src/lib/metigan.ts):
the request executor with retry/backoff (`_makeRequestWithRetry`,
`_prepareAuthHeaders`, the constructor defaults) and the attachment
normalizer (`_processAttachments`, `_getMimeType`), plus the skeleton of
`sendEmail` that connects the two.

JavaScript objects used as header maps are modelled as association lists
with insertion-order preserving overwrite; machine numbers are `Nat`
(byte counts, attempt counters) and `ℚ` (the backoff delay computed from
`Math.random()`); thrown exceptions are `Except.error`.
-/

namespace Metigan

/-- `MAX_FILE_SIZE = 7 * 1024 * 1024` (metigan.ts line 32). -/
def MAX_FILE_SIZE : Nat := 7 * 1024 * 1024

/-! ### Headers as JS objects -/

/-- A JS object used as a header map: association list, first match wins. -/
abbrev Headers := List (String × String)

/-- Property assignment `obj[k] = v` / spread override: replaces the first
binding of `k` in place, or appends a new one. -/
def setHeader : Headers → String → String → Headers
  | [], k, v => [(k, v)]
  | (k', v') :: rest, k, v =>
      if k' = k then (k, v) :: rest else (k', v') :: setHeader rest k v

/-- Property read `obj[k]`. -/
def getHeader : Headers → String → Option String
  | [], _ => none
  | (k', v') :: rest, k => if k' = k then some v' else getHeader rest k

/-- `_prepareAuthHeaders` (metigan.ts lines 690-697). -/
def prepareAuthHeaders (apiKey : String) : Headers :=
  [("x-api-key", apiKey),
   ("Authorization", "Bearer " ++ apiKey),
   ("Content-Type", "application/json"),
   ("User-Agent", "SDK")]

/-! ### Constructor defaults (metigan.ts lines 308-311)

`options.retryCount || 3` and `options.retryDelay || 1000`: an absent
option and the falsy value `0` both fall back to the default. -/

/-- `this.retryCount = options.retryCount || 3`. -/
def effectiveRetryCount (opt : Option Nat) : Nat :=
  match opt with
  | none => 3
  | some n => if n = 0 then 3 else n

/-- `this.retryDelay = options.retryDelay || 1000`. -/
def effectiveRetryDelay (opt : Option Nat) : Nat :=
  match opt with
  | none => 1000
  | some n => if n = 0 then 1000 else n

/-! ### The transport layer (src/utils/http.ts) -/

/-- The response body attached to an API failure, as far as the SDK reads
it (`data.error` / `data.message` at metigan.ts lines 1610-1611). -/
structure FailureData where
  error : Option String
  message : Option String
deriving DecidableEq, Repr

/-- The structured failure thrown by the http utilities:
`{status?, data?, message}`; `status` is absent on network errors. -/
structure HttpFailure where
  status : Option Nat
  data : Option FailureData
  message : String
deriving DecidableEq, Repr

/-- The four HTTP verbs of `_makeRequestWithRetry`'s switch. -/
inductive HttpMethod where
  | GET | POST | PUT | DELETE
deriving DecidableEq, Repr

/-- External transport collaborators `get/post/put/deleteRequest`
(src/utils/http.ts).  Each is indexed by the attempt number (modelling the
state of the outside world across successive invocations) and receives the
body (`D`, for the verbs that send one) and the headers of the call. -/
structure Transport (D T : Type) where
  get : Nat → Headers → Except HttpFailure T
  post : Nat → D → Headers → Except HttpFailure T
  put : Nat → D → Headers → Except HttpFailure T
  deleteRequest : Nat → Headers → Except HttpFailure T

/-- The `switch (method)` dispatch of `_makeRequestWithRetry`
(metigan.ts lines 724-735): `GET`/`DELETE` receive no body. -/
def Transport.call {D T : Type} (tr : Transport D T) :
    HttpMethod → Nat → D → Headers → Except HttpFailure T
  | .GET => fun attempt _ headers => tr.get attempt headers
  | .POST => fun attempt data headers => tr.post attempt data headers
  | .PUT => fun attempt data headers => tr.put attempt data headers
  | .DELETE => fun attempt _ headers => tr.deleteRequest attempt headers

/-! ### The retry loop (`_makeRequestWithRetry`, metigan.ts lines 707-768) -/

/-- The backoff delay computed at metigan.ts line 757:
`this.retryDelay * Math.pow(2, attempt) * (0.5 + Math.random() * 0.5)`;
`r` is the value drawn by `Math.random()`. -/
def backoffDelay (retryDelay : ℚ) (attempt : Nat) (r : ℚ) : ℚ :=
  retryDelay * 2 ^ attempt * (1/2 + r * (1/2))

/-- Result of one executor run, instrumented with the observable trace:
`calls` records every transport invocation (attempt index and the headers
passed), `sleeps` every backoff delay actually awaited.  The error slot is
`Option HttpFailure` because the unreachable fall-through at line 767
(`throw lastError`) can re-throw the initial `undefined`. -/
structure RetryRun (T : Type) where
  result : Except (Option HttpFailure) T
  calls : List (Nat × Headers)
  sleeps : List (Nat × ℚ)

/-- The `for (let attempt = 0; attempt < this.retryCount; attempt++)` loop
of `_makeRequestWithRetry`.  `fuel` is the number of loop iterations still
allowed (`retryCount - attempt` at every call site); `lastError` is the
`lastError` local.  On failure of a non-final attempt the loop sleeps for
`backoffDelay` and continues; on the final attempt it re-throws the error
object unchanged (line 761). -/
def retryLoop {D T : Type} (tr : Transport D T) (method : HttpMethod) (data : D)
    (headers : Headers) (retryDelay : ℚ) (rand : Nat → ℚ) (retryCount : Nat) :
    Nat → Nat → Option HttpFailure → RetryRun T
  | 0, _, lastError => ⟨.error lastError, [], []⟩
  | fuel + 1, attempt, _ =>
      match tr.call method attempt data headers with
      | .ok v => ⟨.ok v, [(attempt, headers)], []⟩
      | .error e =>
          if attempt < retryCount - 1 then
            let d := backoffDelay retryDelay attempt (rand attempt)
            let rest := retryLoop tr method data headers retryDelay rand retryCount fuel (attempt + 1) (some e)
            ⟨rest.result, (attempt, headers) :: rest.calls, (attempt, d) :: rest.sleeps⟩
          else
            ⟨.error (some e), [(attempt, headers)], []⟩

/-- `_makeRequestWithRetry`: merge the auth headers over the caller's
headers (lines 713-718), then run the bounded retry loop from attempt 0
with `lastError` initially `undefined`. -/
def makeRequestWithRetry {D T : Type} (apiKey : String) (data : D) (headers : Headers)
    (tr : Transport D T) (method : HttpMethod) (retryCount : Nat)
    (retryDelay : ℚ) (rand : Nat → ℚ) : RetryRun T :=
  let merged := setHeader (setHeader headers "x-api-key" apiKey)
      "Authorization" ("Bearer " ++ apiKey)
  retryLoop tr method data merged retryDelay rand retryCount retryCount 0 none

/-! ### Error codes (src/lib/error-codes.ts) and `MetiganError` -/

namespace ErrorCode

def INVALID_API_KEY : Nat := 1000
def INVALID_EMAIL_FORMAT : Nat := 1100
def INVALID_RECIPIENT : Nat := 1101
def MISSING_REQUIRED_FIELD : Nat := 1102
def INVALID_ATTACHMENT : Nat := 1103
def ATTACHMENT_TOO_LARGE : Nat := 1104
def INVALID_AUDIENCE_ID : Nat := 1106
def NETWORK_ERROR : Nat := 1203
def EMAIL_SEND_FAILED : Nat := 1400
def UNEXPECTED_ERROR : Nat := 1900

end ErrorCode

/-- `MetiganError(message, code)` (src/lib/errors.ts). -/
structure MetiganError where
  message : String
  code : Nat
deriving DecidableEq, Repr

/-! ### JS string splitting

`filename.split(".")` from `_getMimeType` and the `split("@")` /
`split(".")` of `_validateEmail`, implemented on the character list with
JS semantics for a one-character separator. -/

/-- JS `String.prototype.split` with a single-character separator. -/
def splitOnChar (c : Char) : List Char → List (List Char)
  | [] => [[]]
  | x :: xs =>
      if x = c then [] :: splitOnChar c xs
      else
        match splitOnChar c xs with
        | [] => [[x]]
        | h :: t => (x :: h) :: t

/-- `s.split(c)` as a list of strings. -/
def jsSplit (c : Char) (s : String) : List String :=
  (splitOnChar c s.toList).map (fun l => String.mk l)

/-- JS `toLowerCase` on the ASCII range (which covers every key of the
extension table), as a character-list map. -/
def jsToLower (s : String) : String := String.mk (s.toList.map Char.toLower)

/-! ### `_getMimeType` (metigan.ts lines 649-683) -/

/-- The `mimeMap` record literal of `_getMimeType`, in source order. -/
def mimeMap : List (String × String) :=
  [("pdf", "application/pdf"),
   ("doc", "application/msword"),
   ("docx", "application/vnd.openxmlformats-officedocument.wordprocessingml.document"),
   ("xls", "application/vnd.ms-excel"),
   ("xlsx", "application/vnd.openxmlformats-officedocument.spreadsheetml.sheet"),
   ("ppt", "application/vnd.ms-powerpoint"),
   ("pptx", "application/vnd.openxmlformats-officedocument.presentationml.presentation"),
   ("jpg", "image/jpeg"),
   ("jpeg", "image/jpeg"),
   ("png", "image/png"),
   ("gif", "image/gif"),
   ("svg", "image/svg+xml"),
   ("txt", "text/plain"),
   ("html", "text/html"),
   ("css", "text/css"),
   ("js", "application/javascript"),
   ("json", "application/json"),
   ("xml", "application/xml"),
   ("zip", "application/zip"),
   ("rar", "application/x-rar-compressed"),
   ("tar", "application/x-tar"),
   ("mp3", "audio/mpeg"),
   ("mp4", "video/mp4"),
   ("wav", "audio/wav"),
   ("avi", "video/x-msvideo"),
   ("csv", "text/csv")]

/-- A value the untyped property read `mimeMap[ext]` can produce at
metigan.ts line 682.  `mimeMap` is a plain object literal, so the read
falls through to the prototype chain when `ext` is not an own key: since
`ext` has been lowercased, the reachable `Object.prototype` properties
are exactly `constructor` (the `Object` constructor function) and
`__proto__` (the prototype object).  Both are non-string, truthy
values. -/
inductive MimeValue where
  | str (s : String)
  | objectConstructor
  | objectPrototype
deriving DecidableEq, Repr

/-- Own-property read on an object literal modelled as an association
list: first binding wins, `none` is `undefined`. -/
def recordGet : List (String × String) → String → Option String
  | [], _ => none
  | (k, v) :: rest, key => if k = key then some v else recordGet rest key

/-- JS truthiness of a `mimeMap[ext]` read result: the empty string is
falsy, both inherited objects are truthy. -/
def jsTruthy : MimeValue → Bool
  | .str s => if s = "" then false else true
  | .objectConstructor => true
  | .objectPrototype => true

/-- The full semantics of `mimeMap[ext]`: the own entry when the literal
declares the key, otherwise the `Object.prototype` property of that name
when one exists (only `constructor` and `__proto__` are reachable from a
lowercased extension), otherwise `undefined`. -/
def mimeMapGet (ext : String) : Option MimeValue :=
  match recordGet mimeMap ext with
  | some m => some (.str m)
  | none =>
      if ext = "constructor" then some .objectConstructor
      else if ext = "__proto__" then some .objectPrototype
      else none

/-- `_getMimeType`: `const ext = filename.split(".").pop()?.toLowerCase()`
then `ext && mimeMap[ext] ? mimeMap[ext] : "application/octet-stream"`.
`pop()` on the (always non-empty) split result is its last element; the
ternary tests the truthiness of `ext` first, then of the `mimeMap[ext]`
read (which may hit the prototype chain), and returns that read's value
when both pass. -/
def getMimeType (filename : String) : MimeValue :=
  let ext := jsToLower (((jsSplit '.' filename).getLast?).getD "")
  match mimeMapGet ext with
  | some v =>
      if ext = "" then .str "application/octet-stream"
      else if jsTruthy v then v else .str "application/octet-stream"
  | none => .str "application/octet-stream"

/-! ### Attachment inputs (`File | NodeAttachment | CustomAttachment`) -/

/-- `CustomAttachment.content : Buffer | ArrayBuffer | Uint8Array | string`;
binary data is a byte list. -/
inductive BufferLike where
  | arrayBuffer (bytes : List Nat)
  | nodeBuf (bytes : List Nat)
  | uint8Array (bytes : List Nat)
  | str (s : String)
deriving DecidableEq, Repr

/-- The three attachment input shapes accepted by `_processAttachments`:
a browser `File` (name, bytes, `type` possibly the empty string), a
`NodeAttachment` (`buffer`, `originalname`, `mimetype`), or a
`CustomAttachment` (`content`, `filename`, `contentType`). -/
inductive AttachmentInput where
  | file (name : String) (bytes : List Nat) (type : String)
  | nodeAttachment (originalname : String) (buffer : List Nat) (mimetype : String)
  | custom (filename : String) (content : BufferLike) (contentType : String)
deriving DecidableEq, Repr

/-- The size computation of the `CustomAttachment` branch
(metigan.ts lines 592-599): `byteLength` for ArrayBuffer, `length` for
Buffer/Uint8Array, `Buffer.from(content).length` (UTF-8 byte count) for
strings. -/
def bufferLikeSize : BufferLike → Nat
  | .arrayBuffer bs => bs.length
  | .nodeBuf bs => bs.length
  | .uint8Array bs => bs.length
  | .str s => s.utf8ByteSize

/-- The raw byte length of an attachment as measured by the size guards of
`_processAttachments` (`file.size`, `nodeFile.buffer.length`,
`contentSize`). -/
def rawSize : AttachmentInput → Nat
  | .file _ bytes _ => bytes.length
  | .nodeAttachment _ buffer _ => buffer.length
  | .custom _ content _ => bufferLikeSize content

/-- The filename the size-guard error message reports for each variant. -/
def attachName : AttachmentInput → String
  | .file name _ _ => name
  | .nodeAttachment originalname _ _ => originalname
  | .custom filename _ _ => filename

/-! ### Base64 (`btoa` over the per-byte `String.fromCharCode` string) -/

def base64Alphabet : List Char :=
  "ABCDEFGHIJKLMNOPQRSTUVWXYZabcdefghijklmnopqrstuvwxyz0123456789+/".toList

def base64Digit (n : Nat) : Char := base64Alphabet.getD n 'A'

/-- Standard base64 of a byte sequence, three bytes at a time. -/
def base64Chunks : List Nat → List Char
  | [] => []
  | [b1] =>
      let n := b1 * 2 ^ 16
      [base64Digit (n / 2 ^ 18 % 64), base64Digit (n / 2 ^ 12 % 64), '=', '=']
  | [b1, b2] =>
      let n := b1 * 2 ^ 16 + b2 * 2 ^ 8
      [base64Digit (n / 2 ^ 18 % 64), base64Digit (n / 2 ^ 12 % 64),
       base64Digit (n / 2 ^ 6 % 64), '=']
  | b1 :: b2 :: b3 :: rest =>
      let n := b1 * 2 ^ 16 + b2 * 2 ^ 8 + b3
      base64Digit (n / 2 ^ 18 % 64) :: base64Digit (n / 2 ^ 12 % 64) ::
        base64Digit (n / 2 ^ 6 % 64) :: base64Digit (n % 64) :: base64Chunks rest

/-- `btoa(binary)` where `binary` is the byte-per-character string built at
metigan.ts lines 618-627. -/
def btoa (bytes : List Nat) : String := String.mk (base64Chunks bytes)

/-! ### `_processAttachments` (metigan.ts lines 550-641) -/

/-- The `content` field of a `ProcessedAttachment`: either the classified
buffer passed through untouched, or the base64 string produced in a
browser environment. -/
inductive AttachContent where
  | rawContent (c : BufferLike)
  | base64Content (s : String)
deriving DecidableEq, Repr

/-- The uniform output record pushed at metigan.ts lines 631-637.  The
interface declares `contentType: string`, but the untyped `mimeMap[ext]`
fallback can place an inherited `Object.prototype` value there at
runtime, so the field holds a `MimeValue`. -/
structure ProcessedAttachment where
  filename : String
  content : AttachContent
  contentType : MimeValue
  encoding : String
  disposition : String
deriving DecidableEq, Repr

/-- The `explicit || this._getMimeType(...)` fallback: the explicit field
is a string (falsy when empty), the fallback the `_getMimeType` result. -/
def strOrMime (a : String) (b : MimeValue) : MimeValue :=
  if a = "" then b else .str a

/-- The browser-only base64 conversion step (metigan.ts lines 612-629):
`ArrayBuffer` and `Uint8Array` (hence also Node `Buffer`, a `Uint8Array`
subclass) are encoded, a string is left as-is; outside a browser the
buffer is passed through unchanged. -/
def encodeContent (isBrowser : Bool) : BufferLike → AttachContent
  | .arrayBuffer bs => if isBrowser then .base64Content (btoa bs) else .rawContent (.arrayBuffer bs)
  | .uint8Array bs => if isBrowser then .base64Content (btoa bs) else .rawContent (.uint8Array bs)
  | .nodeBuf bs => if isBrowser then .base64Content (btoa bs) else .rawContent (.nodeBuf bs)
  | .str s => .rawContent (.str s)

/-- The body of the `for (const file of attachments)` loop: classify the
item (browser `File` instance first — only when the environment probe
succeeded —, then `"buffer" in file && "originalname" in file`, then
`"content" in file && "filename" in file`, otherwise an invalid-format
error), enforce the size guard with strict `>`, fill in the MIME type via
`||`-fallback to `_getMimeType`, then build the output record. -/
def processOne (isBrowser : Bool) : AttachmentInput → Except MetiganError ProcessedAttachment
  | .file name bytes ftype =>
      if isBrowser then
        if bytes.length > MAX_FILE_SIZE then
          .error ⟨"File " ++ name ++ " exceeds the maximum size of 7MB",
                  ErrorCode.ATTACHMENT_TOO_LARGE⟩
        else
          .ok ⟨name, encodeContent isBrowser (.arrayBuffer bytes),
               strOrMime ftype (getMimeType name), "base64", "attachment"⟩
      else
        -- outside a browser a DOM `File` has none of the duck-typed
        -- field pairs, so it falls through to the final else branch
        .error ⟨"Invalid attachment format. Please use a valid File, NodeAttachment, or CustomAttachment format.",
                ErrorCode.INVALID_ATTACHMENT⟩
  | .nodeAttachment originalname buffer mimetype =>
      if buffer.length > MAX_FILE_SIZE then
        .error ⟨"File " ++ originalname ++ " exceeds the maximum size of 7MB",
                ErrorCode.ATTACHMENT_TOO_LARGE⟩
      else
        .ok ⟨originalname, encodeContent isBrowser (.nodeBuf buffer),
             strOrMime mimetype (getMimeType originalname), "base64", "attachment"⟩
  | .custom filename content contentType =>
      if bufferLikeSize content > MAX_FILE_SIZE then
        .error ⟨"File " ++ filename ++ " exceeds the maximum size of 7MB",
                ErrorCode.ATTACHMENT_TOO_LARGE⟩
      else
        .ok ⟨filename, encodeContent isBrowser content,
             strOrMime contentType (getMimeType filename), "base64", "attachment"⟩

/-- `_processAttachments`: an empty list yields `[]`; otherwise the loop
accumulates one output per input and a thrown error aborts the whole
batch. -/
def processAttachments (isBrowser : Bool) : List AttachmentInput → Except MetiganError (List ProcessedAttachment)
  | [] => .ok []
  | a :: rest =>
      match processOne isBrowser a with
      | .error e => .error e
      | .ok p =>
          match processAttachments isBrowser rest with
          | .error e => .error e
          | .ok ps => .ok (p :: ps)

/-! ### Input validation (`_validateEmail`, `_extractEmailAddress`,
`_validateMessageData`, metigan.ts lines 343-425) -/

/-- `_validateEmail`: split on `@` into exactly two non-trivial parts, the
domain must split on `.` into at least two parts, none empty. -/
def validateEmail (email : String) : Bool :=
  if email = "" then false
  else
    let parts := jsSplit '@' email
    if parts.length ≠ 2 then false
    else if (parts.getD 0 "").length = 0 then false
    else
      let domainParts := jsSplit '.' (parts.getD 1 "")
      if domainParts.length < 2 then false
      else if domainParts.any (fun part => part.length = 0) then false
      else true

/-- The regex scan `from.match(/<([^>]+)>/)`: first `<` followed by at
least one non-`>` character and a closing `>`; returns the capture. -/
def angleCapture : List Char → Option (List Char)
  | [] => none
  | c :: rest =>
      if c = '<' then
        let inner := rest.takeWhile (fun x => x ≠ '>')
        if inner ≠ [] ∧ (rest.drop inner.length).head? = some '>' then some inner
        else angleCapture rest
      else angleCapture rest

/-- `_extractEmailAddress` (metigan.ts lines 366-377). -/
def extractEmailAddress (fromField : String) : String :=
  if fromField = "" then ""
  else
    match angleCapture fromField.toList with
    | some inner => (String.mk inner).trim
    | none => fromField.trim

/-- `ValidationResult` (`{isValid, error?, code?}`). -/
inductive ValidationResult where
  | valid
  | invalid (error : String) (code : Nat)
deriving DecidableEq, Repr

/-- `contactOptions` as read by `sendEmail` and the validator. -/
structure ContactOptions where
  createContact : Bool
  audienceId : String
  contactFields : Option String
deriving DecidableEq, Repr

/-- `EmailOptions` restricted to the fields the send path reads; an absent
`attachments` array is the empty list. -/
structure EmailOptions where
  from_ : String
  recipients : List String
  subject : String
  content : String
  attachments : List AttachmentInput
  contactOptions : Option ContactOptions
  trackingId : Option String
deriving DecidableEq, Repr

/-- The recipient loop of `_validateMessageData` (lines 410-415): the first
malformed recipient fails the validation. -/
def validateRecipients : List String → ValidationResult
  | [] => .valid
  | r :: rest =>
      let recipientEmail := extractEmailAddress r
      if recipientEmail = "" ∨ ¬ validateEmail recipientEmail then
        .invalid ("Invalid recipient email format: " ++ recipientEmail) ErrorCode.INVALID_RECIPIENT
      else validateRecipients rest

/-- `_validateMessageData` (metigan.ts lines 385-425). -/
def validateMessageData (m : EmailOptions) : ValidationResult :=
  if m.from_ = "" then
    .invalid "Sender email (from) is required" ErrorCode.MISSING_REQUIRED_FIELD
  else if m.recipients.length = 0 then
    .invalid "Recipients must be a non-empty array" ErrorCode.MISSING_REQUIRED_FIELD
  else if m.subject = "" then
    .invalid "Subject is required" ErrorCode.MISSING_REQUIRED_FIELD
  else if m.content = "" then
    .invalid "Content is required" ErrorCode.MISSING_REQUIRED_FIELD
  else
    let fromEmail := extractEmailAddress m.from_
    if fromEmail = "" ∨ ¬ validateEmail fromEmail then
      .invalid ("Invalid sender email format: " ++ fromEmail) ErrorCode.INVALID_EMAIL_FORMAT
    else
      match validateRecipients m.recipients with
      | .invalid e c => .invalid e c
      | .valid =>
          match m.contactOptions with
          | some co =>
              if co.createContact ∧ co.audienceId = "" then
                .invalid "audienceId is required when createContact is true" ErrorCode.INVALID_AUDIENCE_ID
              else .valid
          | none => .valid

/-! ### `sendEmail` (metigan.ts lines 1485-1630) -/

/-- The JSON request body assembled on the non-browser paths
(lines 1536-1583). -/
structure JsonEmailBody where
  from_ : String
  recipients : List String
  subject : String
  content : String
  attachments : Option (List ProcessedAttachment)
  createContact : Option Bool
  audienceId : Option String
  contactFields : Option String
  trackingId : Option String
deriving DecidableEq, Repr

/-- The multipart form assembled on the browser path (lines 1502-1530);
`files` are the native `File` handles appended untouched. -/
structure MultipartForm where
  from_ : String
  recipients : List String
  subject : String
  content : String
  createContact : Option Bool
  audienceId : Option String
  contactFields : Option String
  trackingId : Option String
  files : List AttachmentInput
deriving DecidableEq, Repr

/-- The `formData` local of `sendEmail`: plain object or `FormData`. -/
inductive EmailBody where
  | json (b : JsonEmailBody)
  | multipart (f : MultipartForm)
deriving DecidableEq, Repr

/-- JS truthiness of an optional string field. -/
def truthy (o : Option String) : Bool :=
  match o with
  | some s => s ≠ ""
  | none => false

/-- `a || b` over two optional strings (used for `data.message || data.error`). -/
def optStrOr (a b : Option String) : String :=
  if truthy a then a.getD "" else b.getD ""

/-- The error normalization of `sendEmail`'s catch block
(lines 1599-1616): a failure carrying a (truthy) status becomes
`EMAIL_SEND_FAILED`, anything else `NETWORK_ERROR`. -/
def mapSendFailure (e : Option HttpFailure) : MetiganError :=
  match e with
  | none => ⟨"Failed to connect to the email service", ErrorCode.NETWORK_ERROR⟩
  | some f =>
      match f.status with
      | some s =>
          if s = 0 then ⟨"Failed to connect to the email service", ErrorCode.NETWORK_ERROR⟩
          else
            match f.data with
            | some d =>
                if truthy d.error then
                  ⟨optStrOr d.message d.error, ErrorCode.EMAIL_SEND_FAILED⟩
                else ⟨"Request failed with status " ++ toString s, ErrorCode.EMAIL_SEND_FAILED⟩
            | none => ⟨"Request failed with status " ++ toString s, ErrorCode.EMAIL_SEND_FAILED⟩
      | none => ⟨"Failed to connect to the email service", ErrorCode.NETWORK_ERROR⟩

/-- The contact-creation enrichment of the JSON body (lines 1544-1557). -/
def jsonBody (options : EmailOptions) (atts : Option (List ProcessedAttachment)) : JsonEmailBody :=
  match options.contactOptions with
  | some co =>
      if co.createContact then
        ⟨options.from_, options.recipients, options.subject, options.content, atts,
         some true, some co.audienceId, co.contactFields, options.trackingId⟩
      else
        ⟨options.from_, options.recipients, options.subject, options.content, atts,
         none, none, none, options.trackingId⟩
  | none =>
      ⟨options.from_, options.recipients, options.subject, options.content, atts,
       none, none, none, options.trackingId⟩

/-- `sendEmail`, instrumented: returns the normalized outcome together
with the number of transport invocations performed.  Telemetry (the
`MetiganLogger` side-channel) is omitted — it never alters the result.
On the browser multipart path the per-file `instanceof File` loop throws
on the first non-`File` item (lines 1524-1530); since every such throw
carries the same error, it is rendered as an all-items check. -/
def sendEmail {T : Type} (isBrowser : Bool) (apiKey : String)
    (tr : Transport EmailBody T) (retryCount : Nat) (retryDelay : ℚ)
    (rand : Nat → ℚ) (options : EmailOptions) : Except MetiganError T × Nat :=
  match validateMessageData options with
  | .invalid err code => (.error ⟨err, code⟩, 0)
  | .valid =>
      let headers := prepareAuthHeaders apiKey
      let send : EmailBody → Except MetiganError T × Nat := fun body =>
        let run := makeRequestWithRetry apiKey body headers tr .POST retryCount retryDelay rand
        (match run.result with
         | .ok v => .ok v
         | .error e => .error (mapSendFailure e), run.calls.length)
      if options.attachments.length > 0 then
        if isBrowser then
          if options.attachments.all (fun a => match a with | .file .. => true | _ => false) then
            send (.multipart
              (match options.contactOptions with
               | some co =>
                   if co.createContact then
                     ⟨options.from_, options.recipients, options.subject, options.content,
                      some true, some co.audienceId, co.contactFields, options.trackingId,
                      options.attachments⟩
                   else
                     ⟨options.from_, options.recipients, options.subject, options.content,
                      none, none, none, options.trackingId, options.attachments⟩
               | none =>
                   ⟨options.from_, options.recipients, options.subject, options.content,
                    none, none, none, options.trackingId, options.attachments⟩))
          else
            (.error ⟨"In browser environments, attachments must be File objects",
                     ErrorCode.INVALID_ATTACHMENT⟩, 0)
        else
          match processAttachments false options.attachments with
          | .error e => (.error e, 0)
          | .ok ps => send (.json (jsonBody options (some ps)))
      else
        send (.json (jsonBody options none))

/-! ### Derived definitions used by the statements -/

/-- The success record `_processAttachments` pushes for a classified item
(the `push` at metigan.ts lines 631-637), per variant. -/
def processOneOk (isBrowser : Bool) : AttachmentInput → ProcessedAttachment
  | .file name bytes ftype =>
      ⟨name, encodeContent isBrowser (.arrayBuffer bytes),
       strOrMime ftype (getMimeType name), "base64", "attachment"⟩
  | .nodeAttachment originalname buffer mimetype =>
      ⟨originalname, encodeContent isBrowser (.nodeBuf buffer),
       strOrMime mimetype (getMimeType originalname), "base64", "attachment"⟩
  | .custom filename content contentType =>
      ⟨filename, encodeContent isBrowser content,
       strOrMime contentType (getMimeType filename), "base64", "attachment"⟩

/-- Does an item pass the shape discrimination of `_processAttachments`
in the given environment?  A browser `File` is recognised only when the
environment probe succeeded; the other two shapes always are. -/
def variantOk (isBrowser : Bool) : AttachmentInput → Bool
  | .file .. => isBrowser
  | .nodeAttachment .. => true
  | .custom .. => true

/-- The content type the claim prescribes for a given (lowercased)
extension string: the table's own value for the key, otherwise
`application/octet-stream`.  This is the claim's reading of the lookup —
deliberately without the prototype-chain hits the untyped source read
also accepts. -/
def extensionMime (ext : String) : String :=
  match recordGet mimeMap ext with
  | some m => m
  | none => "application/octet-stream"

/-- The content-type derivation in the words of the specification: the
extension is the part after the last dot of the filename (so a filename
without a dot has none), compared case-insensitively against the table;
no extension or an unknown one gives `application/octet-stream`. -/
def claimDerivedType (filename : String) : String :=
  if 2 ≤ (jsSplit '.' filename).length then
    extensionMime (jsToLower (((jsSplit '.' filename).getLast?).getD ""))
  else "application/octet-stream"

/-! ### Concrete artefacts used by the witness theorems -/

/-- A failure with a non-retryable-looking status. -/
def failure429 : HttpFailure := ⟨some 429, none, "Too Many Requests"⟩

/-- A transport that fails every invocation with `failure429`. -/
def alwaysFailTransport : Transport Unit Unit :=
  ⟨fun _ _ => .error failure429, fun _ _ _ => .error failure429,
   fun _ _ _ => .error failure429, fun _ _ => .error failure429⟩

/-- A transport that fails its first invocation (a network error with no
status) and succeeds from the second on. -/
def failOnceTransport : Transport Unit Nat :=
  ⟨fun k _ => if k = 0 then .error ⟨none, none, "timeout"⟩ else .ok 42,
   fun k _ _ => if k = 0 then .error ⟨none, none, "timeout"⟩ else .ok 42,
   fun k _ _ => if k = 0 then .error ⟨none, none, "timeout"⟩ else .ok 42,
   fun k _ => if k = 0 then .error ⟨none, none, "timeout"⟩ else .ok 42⟩

/-- A transport for `sendEmail` runs that always succeeds. -/
def emailStubTransport : Transport EmailBody Unit :=
  ⟨fun _ _ => .ok (), fun _ _ _ => .ok (),
   fun _ _ _ => .ok (), fun _ _ => .ok ()⟩

/-- An 8-MiB-class buffer attachment named `large.bin`: one byte over the
limit. -/
def oversizedAttachment : AttachmentInput :=
  .nodeAttachment "large.bin" (List.replicate (MAX_FILE_SIZE + 1) 0) ""

/-- A small, well-formed send request carrying `oversizedAttachment`. -/
def oversizedOptions : EmailOptions :=
  ⟨"a@x.com", ["b@y.com"], "s", "c", [oversizedAttachment], none, none⟩

/-! ### Helper lemmas about the retry loop -/

theorem retryLoop_sleeps_formula {D T : Type} (tr : Transport D T) (method : HttpMethod)
    (data : D) (hs : Headers) (rd : ℚ) (rand : Nat → ℚ) (rc : Nat) :
    ∀ (fuel attempt : Nat) (le : Option HttpFailure) (k : Nat) (d : ℚ),
      (k, d) ∈ (retryLoop tr method data hs rd rand rc fuel attempt le).sleeps →
      d = backoffDelay rd k (rand k) := by
  intro fuel
  induction fuel with
  | zero =>
      intro attempt le k d hmem
      simp [retryLoop] at hmem
  | succ n ih =>
      intro attempt le k d hmem
      rw [retryLoop] at hmem
      cases hc : tr.call method attempt data hs with
      | ok v => rw [hc] at hmem; simp at hmem
      | error e =>
          rw [hc] at hmem
          by_cases hlt : attempt < rc - 1
          · simp only [if_pos hlt, List.mem_cons] at hmem
            rcases hmem with heq | hmem
            · obtain ⟨hk, hd⟩ := Prod.mk.injEq .. ▸ heq
              cases heq
              rfl
            · exact ih (attempt + 1) (some e) k d hmem
          · simp [if_neg hlt] at hmem

theorem retryLoop_calls_headers {D T : Type} (tr : Transport D T) (method : HttpMethod)
    (data : D) (hs : Headers) (rd : ℚ) (rand : Nat → ℚ) (rc : Nat) :
    ∀ (fuel attempt : Nat) (le : Option HttpFailure) (k : Nat) (h : Headers),
      (k, h) ∈ (retryLoop tr method data hs rd rand rc fuel attempt le).calls →
      h = hs := by
  intro fuel
  induction fuel with
  | zero =>
      intro attempt le k h hmem
      simp [retryLoop] at hmem
  | succ n ih =>
      intro attempt le k h hmem
      rw [retryLoop] at hmem
      cases hc : tr.call method attempt data hs with
      | ok v => rw [hc] at hmem; simp at hmem; exact hmem.2
      | error e =>
          rw [hc] at hmem
          by_cases hlt : attempt < rc - 1
          · simp only [if_pos hlt, List.mem_cons] at hmem
            rcases hmem with heq | hmem
            · cases heq; rfl
            · exact ih (attempt + 1) (some e) k h hmem
          · simp [if_neg hlt] at hmem
            exact hmem.2

theorem retryLoop_all_fail {D T : Type} (tr : Transport D T) (method : HttpMethod)
    (data : D) (hs : Headers) (rd : ℚ) (rand : Nat → ℚ) (rc : Nat)
    (f : Nat → HttpFailure)
    (hfail : ∀ k, tr.call method k data hs = .error (f k)) :
    ∀ (fuel attempt : Nat) (le : Option HttpFailure),
      1 ≤ fuel → attempt + fuel = rc →
      (retryLoop tr method data hs rd rand rc fuel attempt le).result
          = .error (some (f (rc - 1))) ∧
      (retryLoop tr method data hs rd rand rc fuel attempt le).calls.length = fuel := by
  intro fuel
  induction fuel with
  | zero => intro attempt le h1 _; omega
  | succ n ih =>
      intro attempt le _ h2
      rw [retryLoop, hfail attempt]
      by_cases hn : n = 0
      · subst hn
        have hatt : attempt = rc - 1 := by omega
        have hlt : ¬ attempt < rc - 1 := by omega
        simp [if_neg hlt, hatt]
      · have hlt : attempt < rc - 1 := by omega
        have := ih (attempt + 1) (some (f attempt)) (by omega) (by omega)
        simp only [if_pos hlt]
        exact ⟨this.1, by simpa using this.2⟩

theorem retryLoop_first_success {D T : Type} (tr : Transport D T) (method : HttpMethod)
    (data : D) (hs : Headers) (rd : ℚ) (rand : Nat → ℚ) (rc : Nat)
    (j : Nat) (v : T) (f : Nat → HttpFailure)
    (hfail : ∀ k, k < j → tr.call method k data hs = .error (f k))
    (hok : tr.call method j data hs = .ok v)
    (hj : j < rc) :
    ∀ (fuel attempt : Nat) (le : Option HttpFailure),
      attempt + fuel = rc → attempt ≤ j →
      (retryLoop tr method data hs rd rand rc fuel attempt le).result = .ok v ∧
      (retryLoop tr method data hs rd rand rc fuel attempt le).calls.length
          = j + 1 - attempt := by
  intro fuel
  induction fuel with
  | zero => intro attempt le h1 h2; omega
  | succ n ih =>
      intro attempt le h1 h2
      by_cases hja : attempt = j
      · subst hja
        rw [retryLoop, hok]
        simp
      · have hja2 : attempt < j := by omega
        rw [retryLoop, hfail attempt hja2]
        have hlt : attempt < rc - 1 := by omega
        have := ih (attempt + 1) (some (f attempt)) (by omega) (by omega)
        simp only [if_pos hlt]
        refine ⟨this.1, ?_⟩
        have := this.2
        simp only [List.length_cons, this]
        omega

/-! ### Helper lemmas about headers -/

theorem getHeader_setHeader_self (hs : Headers) (k v : String) :
    getHeader (setHeader hs k v) k = some v := by
  induction hs with
  | nil => simp [setHeader, getHeader]
  | cons p rest ih =>
      obtain ⟨k', v'⟩ := p
      by_cases h : k' = k
      · simp [setHeader, h, getHeader]
      · simp [setHeader, h, getHeader, ih]

theorem getHeader_setHeader_other (hs : Headers) (k k2 v : String) (hne : k ≠ k2) :
    getHeader (setHeader hs k v) k2 = getHeader hs k2 := by
  induction hs with
  | nil => simp [setHeader, getHeader, hne]
  | cons p rest ih =>
      obtain ⟨k', v'⟩ := p
      by_cases h : k' = k
      · subst h
        simp [setHeader, getHeader, hne]
      · simp [setHeader, h, getHeader, ih]

/-- The merged header object of `_makeRequestWithRetry` carries both auth
headers, whatever the caller supplied. -/
theorem merged_headers_auth (hs : Headers) (apiKey : String) :
    getHeader (setHeader (setHeader hs "x-api-key" apiKey)
        "Authorization" ("Bearer " ++ apiKey)) "x-api-key" = some apiKey ∧
    getHeader (setHeader (setHeader hs "x-api-key" apiKey)
        "Authorization" ("Bearer " ++ apiKey)) "Authorization"
      = some ("Bearer " ++ apiKey) := by
  constructor
  · rw [getHeader_setHeader_other _ _ _ _ (by decide)]
    exact getHeader_setHeader_self ..
  · exact getHeader_setHeader_self ..

/-- The effective retry count and base delay are positive for every
constructible client (the `||` defaults rule out 0). -/
theorem one_le_effectiveRetryDelay (o : Option Nat) : 1 ≤ effectiveRetryDelay o := by
  cases o with
  | none => simp [effectiveRetryDelay]
  | some n =>
      simp only [effectiveRetryDelay]
      split <;> omega

/-! ### The claims about the request executor -/

/-- C1: with `retryCount = N` (N ≥ 1) and a transport that fails on every
invocation — with arbitrary failure objects `f k`, hence any status
(400, 404, 422, 429, ...) or none at all — the executor invokes the
transport exactly N times and propagates the Nth attempt's failure object
unchanged; no status is special-cased into a different attempt count. -/
theorem retry_exhaustion_returns_nth_failure {D T : Type}
    (N : Nat) (hN : 1 ≤ N) (apiKey : String) (data : D) (headers : Headers)
    (tr : Transport D T) (method : HttpMethod) (retryDelay : ℚ) (rand : Nat → ℚ)
    (f : Nat → HttpFailure)
    (hfail : ∀ k h, tr.call method k data h = .error (f k)) :
    (makeRequestWithRetry apiKey data headers tr method
        (effectiveRetryCount (some N)) retryDelay rand).result
      = .error (some (f (N - 1))) ∧
    (makeRequestWithRetry apiKey data headers tr method
        (effectiveRetryCount (some N)) retryDelay rand).calls.length = N := by
  have hrc : effectiveRetryCount (some N) = N := by
    simp only [effectiveRetryCount]
    split <;> omega
  have := retryLoop_all_fail tr method data
      (setHeader (setHeader headers "x-api-key" apiKey)
        "Authorization" ("Bearer " ++ apiKey)) retryDelay rand N f
      (fun k => hfail k _) N 0 none hN (by omega)
  simpa [makeRequestWithRetry, hrc] using this

theorem retry_exhaustion_returns_nth_failure_witness :
    (makeRequestWithRetry "key" () [] alwaysFailTransport .POST
        (effectiveRetryCount (some 2)) 1000 (fun _ => 0)).result
      = .error (some failure429) ∧
    (makeRequestWithRetry "key" () [] alwaysFailTransport .POST
        (effectiveRetryCount (some 2)) 1000 (fun _ => 0)).calls.length = 2 :=
  retry_exhaustion_returns_nth_failure 2 (by decide) "key" () [] alwaysFailTransport
    .POST 1000 (fun _ => 0) (fun _ => failure429) (fun _ _ => rfl)

/-- C5: every transport invocation performed by the retry loop — not just
the first — receives headers carrying the API-key header and the
bearer-style Authorization header built from the client's credential. -/
theorem auth_headers_present_every_attempt {D T : Type}
    (apiKey : String) (data : D) (headers : Headers) (tr : Transport D T)
    (method : HttpMethod) (rc : Nat) (rd : ℚ) (rand : Nat → ℚ) :
    ∀ k h, (k, h) ∈ (makeRequestWithRetry apiKey data headers tr method rc rd rand).calls →
      getHeader h "x-api-key" = some apiKey ∧
      getHeader h "Authorization" = some ("Bearer " ++ apiKey) := by
  intro k h hmem
  have hh : h = setHeader (setHeader headers "x-api-key" apiKey)
      "Authorization" ("Bearer " ++ apiKey) := by
    refine retryLoop_calls_headers tr method data _ rd rand rc rc 0 none k h ?_
    simpa [makeRequestWithRetry] using hmem
  rw [hh]
  exact merged_headers_auth headers apiKey

theorem auth_headers_present_every_attempt_witness :
    getHeader [("x-api-key", "key"), ("Authorization", "Bearer key")] "x-api-key"
      = some "key" ∧
    getHeader [("x-api-key", "key"), ("Authorization", "Bearer key")] "Authorization"
      = some ("Bearer " ++ "key") :=
  auth_headers_present_every_attempt "key" () [] alwaysFailTransport .POST 1 0
    (fun _ => 0) 0 [("x-api-key", "key"), ("Authorization", "Bearer key")] (by decide)

/-- C9: if the transport fails on every attempt before `j` and succeeds on
attempt `j` (zero-based) with body `v`, the executor returns `v` unchanged
after exactly `j + 1` transport invocations; in particular a failure on
attempt 1 followed by success on attempt 2 yields the attempt-2 body after
exactly 2 invocations. -/
theorem first_success_short_circuits {D T : Type}
    (apiKey : String) (data : D) (headers : Headers) (tr : Transport D T)
    (method : HttpMethod) (rc : Nat) (rd : ℚ) (rand : Nat → ℚ)
    (j : Nat) (v : T) (f : Nat → HttpFailure)
    (hfail : ∀ k h, k < j → tr.call method k data h = .error (f k))
    (hok : ∀ h, tr.call method j data h = .ok v)
    (hj : j < rc) :
    (makeRequestWithRetry apiKey data headers tr method rc rd rand).result = .ok v ∧
    (makeRequestWithRetry apiKey data headers tr method rc rd rand).calls.length
      = j + 1 := by
  have := retryLoop_first_success tr method data
      (setHeader (setHeader headers "x-api-key" apiKey)
        "Authorization" ("Bearer " ++ apiKey)) rd rand rc j v f
      (fun k hk => hfail k _ hk) (hok _) hj rc 0 none (by omega) (by omega)
  simpa [makeRequestWithRetry] using this

theorem first_success_short_circuits_witness :
    (makeRequestWithRetry "key" () [] failOnceTransport .POST 3 1000
        (fun _ => 0)).result = .ok 42 ∧
    (makeRequestWithRetry "key" () [] failOnceTransport .POST 3 1000
        (fun _ => 0)).calls.length = 1 + 1 :=
  first_success_short_circuits "key" () [] failOnceTransport .POST 3 1000
    (fun _ => 0) 1 42 (fun _ => ⟨none, none, "timeout"⟩)
    (fun k _ hk => by
      have : k = 0 := by omega
      subst this
      rfl)
    (fun _ => rfl) (by decide)

/-- C4: every inter-attempt delay recorded for attempt `k` equals
`baseDelayMs * 2^k * (0.5 + r/2)` for the value `r` drawn at that attempt,
and — the effective base delay of a constructed client being positive —
lies in `[baseDelayMs * 2^k * 0.5, baseDelayMs * 2^k)`. -/
theorem backoff_delay_formula_and_bounds {D T : Type}
    (dOpt : Option Nat) (apiKey : String) (data : D) (headers : Headers)
    (tr : Transport D T) (method : HttpMethod) (rc : Nat) (rand : Nat → ℚ)
    (hrand : ∀ k, 0 ≤ rand k ∧ rand k < 1) :
    ∀ k d, (k, d) ∈ (makeRequestWithRetry apiKey data headers tr method rc
        ((effectiveRetryDelay dOpt : ℚ)) rand).sleeps →
      d = (effectiveRetryDelay dOpt : ℚ) * 2 ^ k * (1/2 + rand k * (1/2)) ∧
      (effectiveRetryDelay dOpt : ℚ) * 2 ^ k * (1/2) ≤ d ∧
      d < (effectiveRetryDelay dOpt : ℚ) * 2 ^ k := by
  intro k d hmem
  have hd : d = backoffDelay ((effectiveRetryDelay dOpt : ℚ)) k (rand k) := by
    refine retryLoop_sleeps_formula tr method data
      (setHeader (setHeader headers "x-api-key" apiKey)
        "Authorization" ("Bearer " ++ apiKey))
      ((effectiveRetryDelay dOpt : ℚ)) rand rc rc 0 none k d ?_
    simpa [makeRequestWithRetry] using hmem
  have hb : (1 : ℚ) ≤ (effectiveRetryDelay dOpt : ℚ) := by
    exact_mod_cast one_le_effectiveRetryDelay dOpt
  have hpos : (0 : ℚ) < (effectiveRetryDelay dOpt : ℚ) * 2 ^ k := by
    have h2 : (0 : ℚ) < 2 ^ k := by positivity
    nlinarith
  obtain ⟨hr0, hr1⟩ := hrand k
  refine ⟨hd, ?_, ?_⟩
  · rw [hd]
    unfold backoffDelay
    nlinarith
  · rw [hd]
    unfold backoffDelay
    nlinarith

theorem backoff_delay_formula_and_bounds_witness :
    ((500 : ℚ) = (effectiveRetryDelay (some 1000) : ℚ) * 2 ^ 0 * (1/2 + 0 * (1/2)) ∧
     (effectiveRetryDelay (some 1000) : ℚ) * 2 ^ 0 * (1/2) ≤ 500 ∧
     (500 : ℚ) < (effectiveRetryDelay (some 1000) : ℚ) * 2 ^ 0) :=
  backoff_delay_formula_and_bounds (some 1000) "key" () [] alwaysFailTransport
    .POST 2 (fun _ => 0) (fun _ => by norm_num) 0 500
    (by norm_num [makeRequestWithRetry, retryLoop, backoffDelay, alwaysFailTransport,
                  Transport.call, effectiveRetryDelay, setHeader])

/-! ### Helper lemmas about the attachment normalizer -/

theorem processOne_ok (env : Bool) (a : AttachmentInput)
    (hv : variantOk env a = true) (hsz : rawSize a ≤ MAX_FILE_SIZE) :
    processOne env a = .ok (processOneOk env a) := by
  cases a with
  | file name bytes ftype =>
      have henv : env = true := by simpa [variantOk] using hv
      subst henv
      have hn : ¬ bytes.length > MAX_FILE_SIZE := by
        simp only [rawSize] at hsz; omega
      simp [processOne, processOneOk, hn]
  | nodeAttachment originalname buffer mimetype =>
      have hn : ¬ buffer.length > MAX_FILE_SIZE := by
        simp only [rawSize] at hsz; omega
      simp [processOne, processOneOk, hn]
  | custom filename content contentType =>
      have hn : ¬ bufferLikeSize content > MAX_FILE_SIZE := by
        simp only [rawSize] at hsz; omega
      simp [processOne, processOneOk, hn]

theorem processOne_too_large (env : Bool) (a : AttachmentInput)
    (hv : variantOk env a = true) (hsz : rawSize a > MAX_FILE_SIZE) :
    processOne env a = .error ⟨"File " ++ attachName a ++ " exceeds the maximum size of 7MB",
        ErrorCode.ATTACHMENT_TOO_LARGE⟩ := by
  cases a with
  | file name bytes ftype =>
      have henv : env = true := by simpa [variantOk] using hv
      subst henv
      have hn : bytes.length > MAX_FILE_SIZE := by simpa [rawSize] using hsz
      simp [processOne, attachName, hn]
  | nodeAttachment originalname buffer mimetype =>
      have hn : buffer.length > MAX_FILE_SIZE := by simpa [rawSize] using hsz
      simp [processOne, attachName, hn]
  | custom filename content contentType =>
      have hn : bufferLikeSize content > MAX_FILE_SIZE := by simpa [rawSize] using hsz
      simp [processOne, attachName, hn]

/-- Normalizing a batch whose prefix is well-formed and within the limit
prepends the prefix's records to whatever the tail normalizes to, and
keeps the tail's error if it has one. -/
theorem processAttachments_append (env : Bool) (pre rest : List AttachmentInput)
    (h : ∀ a ∈ pre, variantOk env a = true ∧ rawSize a ≤ MAX_FILE_SIZE) :
    processAttachments env (pre ++ rest)
      = (processAttachments env rest).map (fun ps => pre.map (processOneOk env) ++ ps) := by
  induction pre with
  | nil =>
      cases hr : processAttachments env rest <;> simp [hr, Except.map]
  | cons a pre ih =>
      have ha := h a (by simp)
      have hpre : ∀ b ∈ pre, variantOk env b = true ∧ rawSize b ≤ MAX_FILE_SIZE :=
        fun b hb => h b (by simp [hb])
      rw [List.cons_append, processAttachments, processOne_ok env a ha.1 ha.2, ih hpre]
      cases hr : processAttachments env rest <;> simp [hr, Except.map]

/-- Every record `processOne` succeeds with reports `encoding = "base64"`
and `disposition = "attachment"`, and outside a browser its content is the
classified buffer passed through raw. -/
theorem processOne_ok_fields (env : Bool) (a : AttachmentInput) (p : ProcessedAttachment)
    (h : processOne env a = .ok p) :
    p.encoding = "base64" ∧ p.disposition = "attachment" ∧
    (env = false → ∃ c, p.content = .rawContent c) := by
  have hraw : ∀ c : BufferLike, ∃ c2, encodeContent false c = .rawContent c2 := by
    intro c; cases c <;> simp [encodeContent]
  cases a with
  | file name bytes ftype =>
      cases env with
      | false => simp [processOne] at h
      | true =>
          by_cases hsz : bytes.length > MAX_FILE_SIZE
          · simp [processOne, hsz] at h
          · simp [processOne, hsz] at h
            cases h
            simp
  | nodeAttachment originalname buffer mimetype =>
      by_cases hsz : buffer.length > MAX_FILE_SIZE
      · simp [processOne, hsz] at h
      · simp [processOne, hsz] at h
        cases h
        refine ⟨rfl, rfl, fun henv => ?_⟩
        subst henv
        simpa using hraw (BufferLike.nodeBuf buffer)
  | custom filename content contentType =>
      by_cases hsz : bufferLikeSize content > MAX_FILE_SIZE
      · simp [processOne, hsz] at h
      · simp [processOne, hsz] at h
        cases h
        refine ⟨rfl, rfl, fun henv => ?_⟩
        subst henv
        exact hraw _

/-! ### The claims about the attachment normalizer -/

/-- C8: a batch whose every item passes the shape discrimination for the
environment and is within the 7 MiB limit normalizes successfully to
exactly one record per item, in input order (the output is the pointwise
image of the input list); the empty batch yields the empty list. -/
theorem valid_batch_order_preserving (env : Bool) (items : List AttachmentInput)
    (h : ∀ a ∈ items, variantOk env a = true ∧ rawSize a ≤ MAX_FILE_SIZE) :
    processAttachments env items = .ok (items.map (processOneOk env)) ∧
    (items.map (processOneOk env)).length = items.length ∧
    processAttachments env ([] : List AttachmentInput) = .ok [] := by
  refine ⟨?_, by simp, rfl⟩
  have := processAttachments_append env items [] h
  simpa [processAttachments, Except.map] using this

theorem valid_batch_order_preserving_witness :
    processAttachments false [AttachmentInput.custom "a.txt" (.str "hi") ""]
      = .ok ([AttachmentInput.custom "a.txt" (.str "hi") ""].map (processOneOk false)) ∧
    ([AttachmentInput.custom "a.txt" (.str "hi") ""].map (processOneOk false)).length
      = [AttachmentInput.custom "a.txt" (.str "hi") ""].length ∧
    processAttachments false ([] : List AttachmentInput) = .ok [] :=
  valid_batch_order_preserving false [.custom "a.txt" (.str "hi") ""]
    (by
      intro a ha
      simp only [List.mem_singleton] at ha
      subst ha
      exact ⟨rfl, by decide⟩)

/-- C7: every record produced by the normalizer carries
`encoding = "base64"` and `disposition = "attachment"`, in both
environments; on the non-browser path the content is additionally the raw
classified buffer, not a base64 string. -/
theorem processed_attachment_encoding_disposition (env : Bool)
    (items : List AttachmentInput) (ps : List ProcessedAttachment)
    (h : processAttachments env items = .ok ps) :
    (∀ p ∈ ps, p.encoding = "base64" ∧ p.disposition = "attachment") ∧
    (env = false → ∀ p ∈ ps, ∃ c, p.content = .rawContent c) := by
  induction items generalizing ps with
  | nil =>
      simp only [processAttachments] at h
      cases h
      simp
  | cons a rest ih =>
      rw [processAttachments] at h
      cases h1 : processOne env a with
      | error e => rw [h1] at h; cases h
      | ok p =>
          rw [h1] at h
          cases h2 : processAttachments env rest with
          | error e => rw [h2] at h; cases h
          | ok ps2 =>
              rw [h2] at h
              cases h
              obtain ⟨hp1, hp2, hp3⟩ := processOne_ok_fields env a p h1
              obtain ⟨ih1, ih2⟩ := ih ps2 h2
              constructor
              · intro q hq
                rcases List.mem_cons.mp hq with rfl | hq
                · exact ⟨hp1, hp2⟩
                · exact ih1 q hq
              · intro henv q hq
                rcases List.mem_cons.mp hq with rfl | hq
                · exact hp3 henv
                · exact ih2 henv q hq

theorem processed_attachment_encoding_disposition_witness :
    ((⟨"a.txt", .rawContent (.str "hi"), .str "text/plain", "base64", "attachment"⟩ :
        ProcessedAttachment).encoding = "base64" ∧
     (⟨"a.txt", .rawContent (.str "hi"), .str "text/plain", "base64", "attachment"⟩ :
        ProcessedAttachment).disposition = "attachment") ∧
    (∃ c, (⟨"a.txt", .rawContent (.str "hi"), .str "text/plain", "base64", "attachment"⟩ :
        ProcessedAttachment).content = .rawContent c) :=
  let t := processed_attachment_encoding_disposition false
    [.custom "a.txt" (.str "hi") ""]
    [⟨"a.txt", .rawContent (.str "hi"), .str "text/plain", "base64", "attachment"⟩]
    rfl
  ⟨t.1 _ (by simp), t.2 rfl _ (by simp)⟩

/-- C10: the size guard uses strict inequality — an attachment of exactly
`MAX_FILE_SIZE` (7 x 1024 x 1024) bytes is accepted in each of the three
input variants, and the too-large error is produced only for raw sizes
strictly above the limit. -/
theorem size_limit_strict_inequality
    (name ftype mt fn ct : String) (bytes : List Nat) (c : BufferLike)
    (h7 : bytes.length = MAX_FILE_SIZE) (hc : bufferLikeSize c = MAX_FILE_SIZE) :
    processOne true (.file name bytes ftype)
      = .ok (processOneOk true (.file name bytes ftype)) ∧
    (∀ env, processOne env (.nodeAttachment name bytes mt)
      = .ok (processOneOk env (.nodeAttachment name bytes mt))) ∧
    (∀ env, processOne env (.custom fn c ct)
      = .ok (processOneOk env (.custom fn c ct))) ∧
    (∀ env (a : AttachmentInput) (e : MetiganError),
      processOne env a = .error e → e.code = ErrorCode.ATTACHMENT_TOO_LARGE →
      rawSize a > MAX_FILE_SIZE) := by
  refine ⟨?_, fun env => ?_, fun env => ?_, ?_⟩
  · exact processOne_ok true (.file name bytes ftype) rfl (by simp [rawSize, h7])
  · exact processOne_ok env (.nodeAttachment name bytes mt) rfl (by simp [rawSize, h7])
  · exact processOne_ok env (.custom fn c ct) rfl (by simp [rawSize, hc])
  · intro env a e he hcode
    by_contra hle
    push_neg at hle
    cases a with
    | file nm bs t =>
        cases env with
        | true =>
            rw [processOne_ok true (.file nm bs t) rfl (by simpa [rawSize] using hle)] at he
            cases he
        | false =>
            simp only [processOne, Bool.false_eq_true, if_false, if_neg] at he
            cases he
            simp [ErrorCode.INVALID_ATTACHMENT, ErrorCode.ATTACHMENT_TOO_LARGE] at hcode
    | nodeAttachment nm bs t =>
        rw [processOne_ok env (.nodeAttachment nm bs t) rfl (by simpa [rawSize] using hle)] at he
        cases he
    | custom nm cc t =>
        rw [processOne_ok env (.custom nm cc t) rfl (by simpa [rawSize] using hle)] at he
        cases he

theorem size_limit_strict_inequality_witness :
    processOne true (.file "x.bin" (List.replicate MAX_FILE_SIZE 0) "")
      = .ok (processOneOk true (.file "x.bin" (List.replicate MAX_FILE_SIZE 0) "")) ∧
    processOne false (.nodeAttachment "x.bin" (List.replicate MAX_FILE_SIZE 0) "")
      = .ok (processOneOk false (.nodeAttachment "x.bin" (List.replicate MAX_FILE_SIZE 0) "")) ∧
    processOne false (.custom "x.bin" (.uint8Array (List.replicate MAX_FILE_SIZE 0)) "")
      = .ok (processOneOk false (.custom "x.bin" (.uint8Array (List.replicate MAX_FILE_SIZE 0)) "")) :=
  let t := size_limit_strict_inequality "x.bin" "" "" "x.bin" ""
    (List.replicate MAX_FILE_SIZE 0) (.uint8Array (List.replicate MAX_FILE_SIZE 0))
    (by simp) (by simp [bufferLikeSize])
  ⟨t.1, t.2.1 false, t.2.2.1 false⟩

/-- C2: a non-browser batch whose well-formed prefix is within the limit
but whose next item exceeds it normalizes to the `ATTACHMENT_TOO_LARGE`
error naming that item and "7MB"; items after the offender are never
examined (the result is that of the batch truncated right after it); and
a `sendEmail` carrying such a batch performs zero transport invocations. -/
theorem oversized_attachment_aborts_before_transport {T : Type}
    (pre post : List AttachmentInput) (bad : AttachmentInput)
    (hpre : ∀ a ∈ pre, variantOk false a = true ∧ rawSize a ≤ MAX_FILE_SIZE)
    (hbadv : variantOk false bad = true)
    (hbad : rawSize bad > MAX_FILE_SIZE)
    (apiKey : String) (tr : Transport EmailBody T) (rc : Nat) (rd : ℚ) (rand : Nat → ℚ)
    (options : EmailOptions) (hatt : options.attachments = pre ++ bad :: post) :
    processAttachments false (pre ++ bad :: post)
      = .error ⟨"File " ++ attachName bad ++ " exceeds the maximum size of 7MB",
                ErrorCode.ATTACHMENT_TOO_LARGE⟩ ∧
    processAttachments false (pre ++ bad :: post)
      = processAttachments false (pre ++ [bad]) ∧
    (sendEmail false apiKey tr rc rd rand options).2 = 0 := by
  have herr : ∀ post2, processAttachments false (pre ++ bad :: post2)
      = .error ⟨"File " ++ attachName bad ++ " exceeds the maximum size of 7MB",
                ErrorCode.ATTACHMENT_TOO_LARGE⟩ := by
    intro post2
    rw [processAttachments_append false pre (bad :: post2) hpre, processAttachments,
        processOne_too_large false bad hbadv hbad]
    rfl
  refine ⟨herr post, by rw [herr post, herr []], ?_⟩
  rw [sendEmail]
  cases hv : validateMessageData options with
  | invalid e c => rfl
  | valid =>
      rw [hatt]
      have hlen : (pre ++ bad :: post).length > 0 := by simp
      simp [hlen, herr post]

theorem oversized_attachment_aborts_before_transport_witness :
    processAttachments false [oversizedAttachment]
      = .error ⟨"File " ++ attachName oversizedAttachment ++ " exceeds the maximum size of 7MB",
                ErrorCode.ATTACHMENT_TOO_LARGE⟩ ∧
    (sendEmail false "key" emailStubTransport 3 1000 (fun _ => 0) oversizedOptions).2 = 0 :=
  let t := oversized_attachment_aborts_before_transport
    [] [] oversizedAttachment (by simp) rfl
    (by simp [oversizedAttachment, rawSize])
    "key" emailStubTransport 3 1000 (fun _ => 0) oversizedOptions rfl
  ⟨t.1, t.2.2⟩

/-! ### Helper lemmas about splitting and the MIME table -/

theorem mk_toList (s : String) : String.mk s.toList = s := by
  cases s
  rfl

theorem splitOnChar_ne_nil (c : Char) (l : List Char) : splitOnChar c l ≠ [] := by
  induction l with
  | nil => simp [splitOnChar]
  | cons x xs ih =>
      by_cases h : x = c
      · simp [splitOnChar, h]
      · simp only [splitOnChar, if_neg h]
        cases hs : splitOnChar c xs with
        | nil => simp
        | cons a t => simp

theorem splitOnChar_len_le_one (c : Char) (l : List Char)
    (h : (splitOnChar c l).length ≤ 1) : splitOnChar c l = [l] := by
  induction l with
  | nil => rfl
  | cons x xs ih =>
      by_cases hx : x = c
      · exfalso
        cases hs : splitOnChar c xs with
        | nil => exact splitOnChar_ne_nil c xs hs
        | cons a t =>
            rw [splitOnChar, if_pos hx, hs] at h
            simp at h
      · cases hs : splitOnChar c xs with
        | nil => exact absurd hs (splitOnChar_ne_nil c xs)
        | cons a t =>
            rw [splitOnChar, if_neg hx, hs] at h ⊢
            simp only [List.length_cons] at h
            have ht : t = [] := by
              cases t with
              | nil => rfl
              | cons b tb => simp at h
            subst ht
            have hxs : splitOnChar c xs = [xs] := ih (by rw [hs]; simp)
            rw [hs] at hxs
            simp only [List.cons.injEq] at hxs
            rw [hxs.1]

theorem recordGet_mem {l : List (String × String)} {k v : String}
    (h : recordGet l k = some v) : (k, v) ∈ l := by
  induction l with
  | nil => simp [recordGet] at h
  | cons p rest ih =>
      obtain ⟨k', v'⟩ := p
      rw [recordGet] at h
      by_cases hk : k' = k
      · rw [if_pos hk] at h
        cases h
        subst hk
        exact List.mem_cons_self ..
      · rw [if_neg hk] at h
        exact List.mem_cons_of_mem _ (ih h)

/-- Every own entry of the `mimeMap` literal has a non-empty key and a
non-empty (hence truthy) value. -/
theorem mimeMap_entries (ext m : String) (h : recordGet mimeMap ext = some m) :
    ext ≠ "" ∧ m ≠ "" := by
  have hall : ∀ p ∈ mimeMap, p.1 ≠ "" ∧ p.2 ≠ "" := by decide
  exact hall _ (recordGet_mem h)

/-- Away from the two reachable `Object.prototype` property names,
`_getMimeType` is the claim's own-table lookup applied to the code's
extension candidate (the last dot-segment, the whole name when there is
no dot). -/
theorem getMimeType_eq_extensionMime (filename : String)
    (h1 : jsToLower (((jsSplit '.' filename).getLast?).getD "") ≠ "constructor")
    (h2 : jsToLower (((jsSplit '.' filename).getLast?).getD "") ≠ "__proto__") :
    getMimeType filename
      = .str (extensionMime (jsToLower (((jsSplit '.' filename).getLast?).getD ""))) := by
  simp only [getMimeType]
  cases hr : recordGet mimeMap (jsToLower (((jsSplit '.' filename).getLast?).getD "")) with
  | none => simp only [mimeMapGet, hr, if_neg h1, if_neg h2, extensionMime]
  | some m =>
      obtain ⟨hk, hm⟩ := mimeMap_entries _ m hr
      simp only [mimeMapGet, hr, extensionMime]
      rw [if_neg hk]
      simp [jsTruthy, hm]

/-! ### The claim about the MIME table -/

/-- C3 counterexample: the filename `pdf` contains no dot — so under the
claim's definition it has no extension and should map to
`application/octet-stream` — yet the code derives `application/pdf`
(`split(".").pop()` returns the whole name); and the unknown extension
`constructor` does not map to `application/octet-stream` either — the
untyped `mimeMap[ext]` read walks the prototype chain and returns the
inherited (truthy) `Object` constructor. -/
theorem mime_dotless_counterexample :
    (jsSplit '.' "pdf").length = 1 ∧
    getMimeType "pdf" = .str "application/pdf" ∧
    getMimeType "pdf" ≠ .str "application/octet-stream" ∧
    getMimeType "x.constructor" = .objectConstructor ∧
    getMimeType "x.constructor" ≠ .str "application/octet-stream" :=
  ⟨rfl, rfl, by decide, rfl, by decide⟩

/-- C3 amended: whenever the code's extension candidate — the lowercased
part after the last dot, or the whole lowercased name when there is no
dot — is neither `constructor` nor `__proto__`, the derivation follows
the own-key table: filenames containing a dot behave exactly as claimed
(table value for a known extension, `application/octet-stream` for an
unknown one), while a dotless filename is looked up whole, so a dotless
table key such as `pdf` yields that key's MIME type.  For the candidates
`constructor` and `__proto__` the untyped `mimeMap[ext]` read returns the
truthy inherited `Object.prototype` property of that name instead of
`application/octet-stream`. -/
theorem mime_table_amended (filename : String) :
    (jsToLower (((jsSplit '.' filename).getLast?).getD "") ≠ "constructor" →
     jsToLower (((jsSplit '.' filename).getLast?).getD "") ≠ "__proto__" →
      getMimeType filename =
        .str (if 2 ≤ (jsSplit '.' filename).length then claimDerivedType filename
              else extensionMime (jsToLower filename))) ∧
    (jsToLower (((jsSplit '.' filename).getLast?).getD "") = "constructor" →
      getMimeType filename = .objectConstructor) ∧
    (jsToLower (((jsSplit '.' filename).getLast?).getD "") = "__proto__" →
      getMimeType filename = .objectPrototype) := by
  refine ⟨fun h1 h2 => ?_, fun hc => ?_, fun hp => ?_⟩
  · rw [getMimeType_eq_extensionMime filename h1 h2]
    congr 1
    by_cases h : 2 ≤ (jsSplit '.' filename).length
    · rw [if_pos h]
      unfold claimDerivedType
      rw [if_pos h]
    · rw [if_neg h]
      have hlen : (splitOnChar '.' filename.toList).length ≤ 1 := by
        have hj : (jsSplit '.' filename).length
            = (splitOnChar '.' filename.toList).length := by
          simp [jsSplit]
        omega
      have hsp := splitOnChar_len_le_one '.' filename.toList hlen
      simp only [jsSplit, hsp, List.map_cons, List.map_nil, List.getLast?_singleton,
                 Option.getD_some]
      rw [mk_toList]
  · simp only [getMimeType, hc]
    rfl
  · simp only [getMimeType, hp]
    rfl

theorem mime_table_amended_witness :
    getMimeType "a.txt" = .str (claimDerivedType "a.txt") ∧
    getMimeType "x.constructor" = .objectConstructor :=
  ⟨(mime_table_amended "a.txt").1 (by decide) (by decide),
   (mime_table_amended "x.constructor").2.1 (by decide)⟩

/-! ### The claim about a zero configured retry delay -/

/-- C6 counterexample: a client constructed with `retryDelay = 0` does not
retry immediately — the constructor's `options.retryDelay || 1000` turns 0
into the default 1000, and a concrete failing run sleeps 500 ms (not 0)
between its two attempts. -/
theorem retry_delay_zero_counterexample :
    effectiveRetryDelay (some 0) = 1000 ∧
    (makeRequestWithRetry "key" () [] alwaysFailTransport .POST 2
        ((effectiveRetryDelay (some 0) : ℚ)) (fun _ => 0)).sleeps = [(0, 500)] ∧
    (500 : ℚ) ≠ 0 := by
  refine ⟨rfl, ?_, by norm_num⟩
  norm_num [makeRequestWithRetry, retryLoop, backoffDelay, alwaysFailTransport,
            Transport.call, effectiveRetryDelay, setHeader]

/-- C6 amended: the executor's delay formula does collapse to 0 when its
base delay is literally 0 (`0 * 2^k * anything = 0`), but a client
constructed with `retryDelay = 0` never reaches that state: the falsy
default substitutes 1000, so every inter-attempt delay of such a client is
`1000 * 2^k * (0.5 + r/2)`. -/
theorem retry_delay_zero_amended {D T : Type}
    (apiKey : String) (data : D) (headers : Headers) (tr : Transport D T)
    (method : HttpMethod) (rc : Nat) (rand : Nat → ℚ) :
    (∀ (k : Nat) (r : ℚ), backoffDelay 0 k r = 0) ∧
    ∀ k d, (k, d) ∈ (makeRequestWithRetry apiKey data headers tr method rc
        ((effectiveRetryDelay (some 0) : ℚ)) rand).sleeps →
      d = 1000 * 2 ^ k * (1/2 + rand k * (1/2)) := by
  constructor
  · intro k r
    simp [backoffDelay]
  · intro k d hmem
    have hd : d = backoffDelay ((effectiveRetryDelay (some 0) : ℚ)) k (rand k) := by
      refine retryLoop_sleeps_formula tr method data
        (setHeader (setHeader headers "x-api-key" apiKey)
          "Authorization" ("Bearer " ++ apiKey))
        ((effectiveRetryDelay (some 0) : ℚ)) rand rc rc 0 none k d ?_
      simpa [makeRequestWithRetry] using hmem
    rw [hd]
    norm_num [backoffDelay, effectiveRetryDelay]

theorem retry_delay_zero_amended_witness :
    backoffDelay 0 3 (1/3) = 0 ∧
    (500 : ℚ) = 1000 * 2 ^ 0 * (1/2 + (0 : ℚ) * (1/2)) :=
  let t := retry_delay_zero_amended "key" () [] alwaysFailTransport .POST 2
    (fun _ => 0)
  ⟨t.1 3 (1/3),
   t.2 0 500
     (by norm_num [makeRequestWithRetry, retryLoop, backoffDelay, alwaysFailTransport,
                   Transport.call, effectiveRetryDelay, setHeader])⟩

end Metigan
